import Mathlib

/-!
Shallow embedding of the image-comparison utilities of `scripts/common.py`
from the tiny-cuda-nn repository: the error-metric engine
(`compute_error_img` / `compute_error`), the SSIM pipeline (luminance,
separable blur with scipy's reflect boundary), the sRGB color converters,
the alpha un-premultiplication step of `write_image`, and the raw `.bin`
half-float codec (`write_image` / `read_image` for `.bin` paths).

Modelling conventions:
* an image is a total function `ℕ → ℕ → ℕ → value` (row, column, channel)
  together with explicit dimensions `h`, `w`, `c`; entries outside the
  dimensions are junk and never inspected by the theorems;
* the metric engine and the color converters are modelled over `ℝ`,
  because the source computes transcendental powers (`** 2.4`,
  `** 0.4545454545`); the `.bin` codec is modelled over `ℚ`, where the
  half-float quantisation is exact;
* `ℝ`/`ℚ` have no NaN or Inf, so the source's zeroing of non-finite
  entries (line 160 and line 185) is the identity map in this model;
* Python/numpy float division by zero yields inf/nan; in the model `x / 0 = 0`.
  No settled claim depends on a division whose denominator can vanish.
-/

/-- Line 161: `img = np.maximum(img, 0.)` (the candidate sanitisation of
`compute_error_img`; the zeroing of non-finite entries on line 160 is the
identity over `ℝ`). -/
noncomputable def sanitize (img : ℕ → ℕ → ℕ → ℝ) : ℕ → ℕ → ℕ → ℝ :=
  fun i j ch => max (img i j ch) 0

/-- Elementwise `np.clip(x, lo, hi) = np.minimum(np.maximum(x, lo), hi)`
applied to a 3-D image. -/
noncomputable def clip3 (lo hi : ℝ) (x : ℕ → ℕ → ℕ → ℝ) : ℕ → ℕ → ℕ → ℝ :=
  fun i j ch => min (max (x i j ch) lo) hi

/-- Line 141-142: `L1(img, ref) = np.abs(img - ref)`. -/
noncomputable def L1 (img ref : ℕ → ℕ → ℕ → ℝ) : ℕ → ℕ → ℕ → ℝ :=
  fun i j ch => |img i j ch - ref i j ch|

/-- Line 144-145: `APE(img, ref) = L1(img, ref) / (1e-2 + ref)`. -/
noncomputable def APE (img ref : ℕ → ℕ → ℕ → ℝ) : ℕ → ℕ → ℕ → ℝ :=
  fun i j ch => L1 img ref i j ch / (1e-2 + ref i j ch)

/-- Line 147-148: `SAPE(img, ref) = L1(img, ref) / (1e-2 + (ref + img) / 2.)`. -/
noncomputable def SAPE (img ref : ℕ → ℕ → ℕ → ℝ) : ℕ → ℕ → ℕ → ℝ :=
  fun i j ch => L1 img ref i j ch / (1e-2 + (ref i j ch + img i j ch) / 2)

/-- Line 150-151: `L2(img, ref) = (img - ref)**2`. -/
noncomputable def L2 (img ref : ℕ → ℕ → ℕ → ℝ) : ℕ → ℕ → ℕ → ℝ :=
  fun i j ch => (img i j ch - ref i j ch) ^ 2

/-- Line 153-154: `RSE(img, ref) = L2(img, ref) / (1e-2 + ref**2)`. -/
noncomputable def RSE (img ref : ℕ → ℕ → ℕ → ℝ) : ℕ → ℕ → ℕ → ℝ :=
  fun i j ch => L2 img ref i j ch / (1e-2 + ref i j ch ^ 2)

/-- Line 119: `np.maximum(0, a)**0.4545454545`, the fixed-gamma curve used
inside `luminance`. -/
noncomputable def lum_gamma (t : ℝ) : ℝ := max 0 t ^ (0.4545454545 : ℝ)

/-- Line 118-120: `luminance(a) = 0.2126*ag[:,:,0] + 0.7152*ag[:,:,1] +
0.0722*ag[:,:,2]` where `ag = np.maximum(0, a)**0.4545454545`.
The source indexes channels 0, 1, 2 (an image with fewer than 3 channels
raises IndexError in Python; theorems about SSIM assume `3 ≤ c`). -/
noncomputable def luminance (a : ℕ → ℕ → ℕ → ℝ) : ℕ → ℕ → ℝ :=
  fun i j => 0.2126 * lum_gamma (a i j 0) + 0.7152 * lum_gamma (a i j 1)
    + 0.0722 * lum_gamma (a i j 2)

/-- Line 124: the 5-tap blur kernel `[0.120078, 0.233881, 0.292082,
0.233881, 0.120078]` of `SSIM.blur`. -/
noncomputable def kern : Fin 5 → ℝ
  | 0 => 0.120078
  | 1 => 0.233881
  | 2 => 0.292082
  | 3 => 0.233881
  | 4 => 0.120078

/-- Boundary handling of `scipy.ndimage.filters.convolve1d` in its default
mode, which extends the array by reflection about the edges (pattern
`d c b a | a b c d | d c b a`, repeated); equivalently, the index is
folded with period `2n` and mirrored on the upper half. -/
def reflectIdx (n : ℕ) (i : ℤ) : ℕ :=
  let r := (i % (2 * n)).toNat
  if r < n then r else 2 * n - 1 - r

/-- Line 125: `convolve1d(a, k, axis=0)` (the kernel is symmetric, so
convolution and correlation coincide). -/
noncomputable def conv0 (h : ℕ) (x : ℕ → ℕ → ℝ) : ℕ → ℕ → ℝ :=
  fun i j => ∑ t : Fin 5, kern t * x (reflectIdx h ((i : ℤ) + t.val - 2)) j

/-- Line 126: `convolve1d(x, k, axis=1)`. -/
noncomputable def conv1 (w : ℕ) (x : ℕ → ℕ → ℝ) : ℕ → ℕ → ℝ :=
  fun i j => ∑ t : Fin 5, kern t * x i (reflectIdx w ((j : ℤ) + t.val - 2))

/-- Lines 123-126: `blur(a) = convolve1d(convolve1d(a, k, axis=0), k, axis=1)`. -/
noncomputable def blur (h w : ℕ) (x : ℕ → ℕ → ℝ) : ℕ → ℕ → ℝ :=
  conv1 w (conv0 h x)

/-- Lines 122-139: `SSIM(a, b)` computed on the luminance of its inputs. -/
noncomputable def SSIM (h w : ℕ) (a b : ℕ → ℕ → ℕ → ℝ) : ℕ → ℕ → ℝ :=
  let A := luminance a
  let B := luminance b
  let mA := blur h w A
  let mB := blur h w B
  let sA := fun i j => blur h w (fun p q => A p q * A p q) i j - mA i j ^ 2
  let sB := fun i j => blur h w (fun p q => B p q * B p q) i j - mB i j ^ 2
  let sAB := fun i j => blur h w (fun p q => A p q * B p q) i j - mA i j * mB i j
  let c1 : ℝ := 0.01 ^ 2
  let c2 : ℝ := 0.03 ^ 2
  let p1 := fun i j =>
    (2 * mA i j * mB i j + c1) / (mA i j * mA i j + mB i j * mB i j + c1)
  let p2 := fun i j => (2 * sAB i j + c2) / (sA i j + sB i j + c2)
  fun i j => p1 i j * p2 i j

/-- Row-major flattening of a 3-D error map restricted to the image
dimensions (`error.flatten()` on an `(h, w, c)` array). -/
noncomputable def flatten3 (h w c : ℕ) (F : ℕ → ℕ → ℕ → ℝ) : List ℝ :=
  (List.range h).flatMap fun i =>
    (List.range w).flatMap fun j =>
      (List.range c).map fun ch => F i j ch

/-- `np.sort` of the flattened values (sorting over `ℝ` uses the classical
decidability of the order). -/
noncomputable def sortR (l : List ℝ) : List ℝ :=
  @List.insertionSort ℝ (· ≤ ·) (fun _ _ => Real.decidableLE _ _) l

/-- Arithmetic mean of a list of reals (`np.mean`; the model returns `0`
for the empty list, where numpy produces NaN). -/
noncomputable def lmean (l : List ℝ) : ℝ := l.sum / l.length

/-- Lines 112-116: `trim(error)` sorts the flattened values, discards
`skip = int(1e-6 * size)` entries from each tail and averages the rest. -/
noncomputable def trim (l : List ℝ) : ℝ :=
  let s := sortR l
  let skip := l.length / 1000000
  lmean ((s.drop skip).take (s.length - skip - skip))

/-- Shape of the value returned by `compute_error_img`: a per-pixel
per-channel map (every elementwise metric), a single 2-D map (SSIM), or a
bare scalar (MtRSE). -/
inductive ErrMap where
  | chan : (ℕ → ℕ → ℕ → ℝ) → ErrMap
  | plane : (ℕ → ℕ → ℝ) → ErrMap
  | scalar : ℝ → ErrMap

/-- The result of `compute_error_img` is a bare scalar rather than an
array. -/
def ErrMap.IsScalar : ErrMap → Prop
  | .chan _ => False
  | .plane _ => False
  | .scalar _ => True

/-- Every value held by the result of `compute_error_img` is non-negative. -/
def ErrMap.Nonneg : ErrMap → Prop
  | .chan F => ∀ i j ch, 0 ≤ F i j ch
  | .plane F => ∀ i j, 0 ≤ F i j
  | .scalar q => 0 ≤ q

/-- Lines 159-181: `compute_error_img(metric, img, ref)`.  The candidate is
sanitised (non-finite entries zeroed -- a no-op over `ℝ` -- and clamped to
non-negative values); the reference is used as passed.  An unknown metric
name raises `ValueError(f"Unknown metric: {metric}.")`. -/
noncomputable def compute_error_img (metric : String) (h w c : ℕ)
    (img ref : ℕ → ℕ → ℕ → ℝ) : Except String ErrMap :=
  let img' := sanitize img
  if metric = "MAE" then .ok (.chan (L1 img' ref))
  else if metric = "MAPE" then .ok (.chan (APE img' ref))
  else if metric = "SMAPE" then .ok (.chan (SAPE img' ref))
  else if metric = "MSE" then .ok (.chan (L2 img' ref))
  else if metric = "MScE" then .ok (.chan (L2 (clip3 0 1 img') (clip3 0 1 ref)))
  else if metric = "MRSE" then .ok (.chan (RSE img' ref))
  else if metric = "MtRSE" then .ok (.scalar (trim (flatten3 h w c (RSE img' ref))))
  else if metric = "MRScE" then .ok (.chan (RSE (clip3 0 100 img') (clip3 0 100 ref)))
  else if metric = "SSIM" then .ok (.plane (SSIM h w (clip3 0 1 img') (clip3 0 1 ref)))
  else .error ("Unknown metric: " ++ metric ++ ".")

/-- Mean of a 2-D map over the image dimensions (`np.mean` of an `(h, w)`
array). -/
noncomputable def mean2 (h w : ℕ) (g : ℕ → ℕ → ℝ) : ℝ :=
  (∑ i ∈ Finset.range h, ∑ j ∈ Finset.range w, g i j) / ((h : ℝ) * w)

/-- Lines 183-189: `compute_error(metric, img, ref)`: zero non-finite map
entries (identity over `ℝ`), average over channels when the map is 3-D,
then take the overall mean.  When `compute_error_img` returns a bare
scalar (MtRSE), line 185's item assignment on a `numpy.float64` raises a
TypeError in Python, modelled as an error value. -/
noncomputable def compute_error (metric : String) (h w c : ℕ)
    (img ref : ℕ → ℕ → ℕ → ℝ) : Except String ℝ :=
  match compute_error_img metric h w c img ref with
  | .error e => .error e
  | .ok (.chan F) =>
      .ok (mean2 h w (fun i j => (∑ ch ∈ Finset.range c, F i j ch) / (c : ℝ)))
  | .ok (.plane F) => .ok (mean2 h w F)
  | .ok (.scalar _) =>
      .error "TypeError: 'numpy.float64' object does not support item assignment"

/-- Lines 60-62: `srgb_to_linear`. -/
noncomputable def srgb_to_linear (x : ℝ) : ℝ :=
  if x > 0.04045 then ((x + 0.055) / 1.055) ^ (2.4 : ℝ) else x / 12.92

/-- Lines 64-66: `linear_to_srgb`. -/
noncomputable def linear_to_srgb (x : ℝ) : ℝ :=
  if x > 0.0031308 then 1.055 * x ^ ((1 : ℝ) / 2.4) - 0.055 else 12.92 * x

/-- Line 99 of `write_image`: `np.divide(img[...,0:3], img[...,3:4],
out=np.zeros_like(img[...,0:3]), where=img[...,3:4] != 0)` -- RGB channels
are divided by alpha where alpha is non-zero and left at the
zero-initialised output elsewhere; the alpha channel is untouched. -/
noncomputable def unmultiply_alpha (pix : ℕ → ℕ → ℕ → ℝ) : ℕ → ℕ → ℕ → ℝ :=
  fun i j ch =>
    if ch < 3 then (if pix i j 3 = 0 then 0 else pix i j ch / pix i j 3)
    else pix i j ch

/-- Lines 96-102 of `write_image` (raster branch): for a 4-channel image,
un-premultiply RGB by alpha and then convert RGB to sRGB; otherwise
convert everything to sRGB. -/
noncomputable def write_raster_prep (c : ℕ) (pix : ℕ → ℕ → ℕ → ℝ) : ℕ → ℕ → ℕ → ℝ :=
  if c = 4 then
    fun i j ch =>
      if ch < 3 then linear_to_srgb (unmultiply_alpha pix i j ch) else pix i j ch
  else fun i j ch => linear_to_srgb (pix i j ch)

/-- Round a rational to the nearest integer, ties to even (the rounding
used by IEEE-754 conversions such as `astype(np.float16)`). -/
def rhe (q : ℚ) : ℤ :=
  if q - ⌊q⌋ < 1 / 2 then ⌊q⌋
  else if 1 / 2 < q - ⌊q⌋ then ⌊q⌋ + 1
  else if ⌊q⌋ % 2 = 0 then ⌊q⌋ else ⌊q⌋ + 1

/-- The 16-bit code produced by converting a finite value to IEEE-754
binary16 (`astype(np.float16)`): 1 sign bit, 5 exponent bits, 10
significand bits; subnormals below `2⁻¹⁴`, significand grid `2^(E-10)` for
a value in `[2^E, 2^(E+1))`, round to nearest with ties to even.
Faithful for `|x| < 65520`; beyond that the conversion overflows to
infinity, which this rational-valued model does not represent. -/
def f16bits (x : ℚ) : ℕ :=
  if x = 0 then 0
  else
    let s : ℕ := if x < 0 then 32768 else 0
    let m := |x|
    if m < 1 / 16384 then s + (rhe (m * 16777216)).toNat
    else
      let t := (⌊m * 16384⌋).toNat
      let L := t.log2
      let k := (rhe (m * 16777216 / 2 ^ L)).toNat
      if k = 2048 then s + (L + 2) * 1024 else s + (L + 1) * 1024 + (k - 1024)

/-- The rational value of a 16-bit binary16 code (`astype(np.float32)` of
a half-float): `(-1)^s * f * 2⁻²⁴` for subnormals, `(-1)^s * (1024 + f) *
2^(e-25)` for normals.  (Codes with exponent 31 are inf/nan in IEEE-754;
they decode to a junk finite value here and are outside every theorem's
range.) -/
def f16val (b : ℕ) : ℚ :=
  let s : ℚ := if b / 32768 % 2 = 1 then -1 else 1
  let e := b / 1024 % 32
  let f := b % 1024
  if e = 0 then s * f / 16777216 else s * (1024 + f) * 2 ^ e / 33554432

/-- Half-precision rounding: the value read back after writing a value
through the `.bin` codec (`x.astype(np.float16).astype(np.float32)`). -/
def f16round (x : ℚ) : ℚ := f16val (f16bits x)

/-- The two little-endian bytes of the binary16 code of a value
(`np.float16` is stored little-endian by `tobytes()`). -/
def encodePair (x : ℚ) : ℕ × ℕ := (f16bits x % 256, f16bits x / 256)

/-- Concatenate a list of byte pairs into a byte list. -/
def pairsBytes : List (ℕ × ℕ) → List ℕ
  | [] => []
  | p :: t => p.1 :: p.2 :: pairsBytes t

/-- Group a byte list into consecutive pairs (how `np.frombuffer` with
`dtype=np.float16` walks the buffer); a trailing odd byte is dropped. -/
def chunk2 : List ℕ → List (ℕ × ℕ)
  | a :: b :: t => (a, b) :: chunk2 t
  | _ => []

/-- The four little-endian bytes of a 32-bit integer
(`struct.pack("ii", ...)` writes two of these). -/
def int32le (n : ℕ) : List ℕ :=
  [n % 256, n / 256 % 256, n / 65536 % 256, n / 16777216 % 256]

/-- Decode four little-endian bytes as a signed 32-bit integer
(`struct.unpack("ii", ...)`). -/
def decodeInt32 (b0 b1 b2 b3 : ℕ) : ℤ :=
  let u := b0 + 256 * b1 + 65536 * b2 + 16777216 * b3
  if u < 2 ^ 31 then (u : ℤ) else (u : ℤ) - 2 ^ 32

/-- An image on the codec side: dimensions plus a total pixel function
over `ℚ` (the `.bin` codec involves no transcendental arithmetic). -/
structure QImage where
  h : ℕ
  w : ℕ
  c : ℕ
  pix : ℕ → ℕ → ℕ → ℚ

/-- The value written at flat position `k` of the `.bin` payload: the
image padded with constant `1.0` channels up to 4 channels when it has
fewer (lines 90-91, `np.dstack((img, np.ones(...)))`), flattened row-major
with the channel index fastest. -/
def binVals (img : QImage) (k : ℕ) : ℚ :=
  let cw := if img.c < 4 then 4 else img.c
  let ch := k % cw
  let j := k / cw % img.w
  let i := k / cw / img.w
  if ch < img.c then img.pix i j ch else 1

/-- Lines 89-94 of `write_image` (`.bin` branch): pack the height and
width as two int32 values, then the (padded) image as row-major
half-floats. -/
def write_image_bin (img : QImage) : List ℕ :=
  let cw := if img.c < 4 then 4 else img.c
  int32le img.h ++ int32le img.w ++
    pairsBytes ((List.range (img.h * img.w * cw)).map fun k => encodePair (binVals img k))

/-- Byte access into a buffer (`bytes[i]`; out of range never happens on
the paths the theorems take). -/
def byteAt (l : List ℕ) (i : ℕ) : ℕ := l.getD i 0

/-- Lines 71-75 of `read_image` (`.bin` branch):
`h, w = struct.unpack("ii", bytes[:8])` (fails when fewer than 8 bytes),
then `np.frombuffer(bytes, dtype=np.float16, count=h*w*4, offset=8)`
(fails for a negative count, or when the buffer holds fewer than `h*w*4`
half-floats past the offset; extra trailing bytes are ignored), reshaped
to `[h, w, 4]`. -/
def read_image_bin (bytes : List ℕ) : Except String QImage :=
  if bytes.length < 8 then
    .error "struct.error: unpack requires a buffer of 8 bytes"
  else
    let hI := decodeInt32 (byteAt bytes 0) (byteAt bytes 1) (byteAt bytes 2) (byteAt bytes 3)
    let wI := decodeInt32 (byteAt bytes 4) (byteAt bytes 5) (byteAt bytes 6) (byteAt bytes 7)
    if hI < 0 ∨ wI < 0 then .error "ValueError: negative count"
    else
      let h := hI.toNat
      let w := wI.toNat
      if bytes.length - 8 < h * w * 4 * 2 then
        .error "ValueError: buffer is smaller than requested size"
      else
        let vals := (chunk2 (bytes.drop 8)).map fun p => f16val (p.1 + 256 * p.2)
        .ok ⟨h, w, 4, fun i j ch =>
          if i < h ∧ j < w ∧ ch < 4 then vals.getD ((i * w + j) * 4 + ch) 0 else 0⟩

/-! ### Branch equations for the metric dispatch -/

theorem compute_error_img_MAE (h w c : ℕ) (img ref : ℕ → ℕ → ℕ → ℝ) :
    compute_error_img "MAE" h w c img ref = .ok (.chan (L1 (sanitize img) ref)) := rfl

theorem compute_error_img_MAPE (h w c : ℕ) (img ref : ℕ → ℕ → ℕ → ℝ) :
    compute_error_img "MAPE" h w c img ref = .ok (.chan (APE (sanitize img) ref)) := rfl

theorem compute_error_img_SMAPE (h w c : ℕ) (img ref : ℕ → ℕ → ℕ → ℝ) :
    compute_error_img "SMAPE" h w c img ref = .ok (.chan (SAPE (sanitize img) ref)) := rfl

theorem compute_error_img_MSE (h w c : ℕ) (img ref : ℕ → ℕ → ℕ → ℝ) :
    compute_error_img "MSE" h w c img ref = .ok (.chan (L2 (sanitize img) ref)) := rfl

theorem compute_error_img_MScE (h w c : ℕ) (img ref : ℕ → ℕ → ℕ → ℝ) :
    compute_error_img "MScE" h w c img ref =
      .ok (.chan (L2 (clip3 0 1 (sanitize img)) (clip3 0 1 ref))) := rfl

theorem compute_error_img_MRSE (h w c : ℕ) (img ref : ℕ → ℕ → ℕ → ℝ) :
    compute_error_img "MRSE" h w c img ref = .ok (.chan (RSE (sanitize img) ref)) := rfl

theorem compute_error_img_MtRSE (h w c : ℕ) (img ref : ℕ → ℕ → ℕ → ℝ) :
    compute_error_img "MtRSE" h w c img ref =
      .ok (.scalar (trim (flatten3 h w c (RSE (sanitize img) ref)))) := rfl

theorem compute_error_img_MRScE (h w c : ℕ) (img ref : ℕ → ℕ → ℕ → ℝ) :
    compute_error_img "MRScE" h w c img ref =
      .ok (.chan (RSE (clip3 0 100 (sanitize img)) (clip3 0 100 ref))) := rfl

theorem compute_error_img_SSIM (h w c : ℕ) (img ref : ℕ → ℕ → ℕ → ℝ) :
    compute_error_img "SSIM" h w c img ref =
      .ok (.plane (SSIM h w (clip3 0 1 (sanitize img)) (clip3 0 1 ref))) := rfl

theorem compute_error_chan (metric : String) (h w c : ℕ)
    (img ref : ℕ → ℕ → ℕ → ℝ) (F : ℕ → ℕ → ℕ → ℝ)
    (hF : compute_error_img metric h w c img ref = .ok (.chan F)) :
    compute_error metric h w c img ref =
      .ok (mean2 h w fun i j => (∑ ch ∈ Finset.range c, F i j ch) / (c : ℝ)) := by
  unfold compute_error
  rw [hF]

theorem compute_error_plane (metric : String) (h w c : ℕ)
    (img ref : ℕ → ℕ → ℕ → ℝ) (F : ℕ → ℕ → ℝ)
    (hF : compute_error_img metric h w c img ref = .ok (.plane F)) :
    compute_error metric h w c img ref = .ok (mean2 h w F) := by
  unfold compute_error
  rw [hF]

/-! ### C4: metric-name validation -/

/-- C4: `compute_error_img` fails, with an error naming the unrecognized
metric string (message `Unknown metric: <metric>.`), exactly when the
metric is not one of the nine known names.  (Stated for images with at
least 3 channels, where no known-metric branch can fail for a different
reason in the source.) -/
theorem unknown_metric_error (metric : String) (h w c : ℕ)
    (img ref : ℕ → ℕ → ℕ → ℝ) (hc : 3 ≤ c) :
    (metric ∈ ["MAE", "MAPE", "SMAPE", "MSE", "MScE", "MRSE", "MtRSE", "MRScE", "SSIM"] →
      ∃ M, compute_error_img metric h w c img ref = .ok M) ∧
    (metric ∉ ["MAE", "MAPE", "SMAPE", "MSE", "MScE", "MRSE", "MtRSE", "MRScE", "SSIM"] →
      compute_error_img metric h w c img ref =
        .error ("Unknown metric: " ++ metric ++ ".")) := by
  constructor
  · intro hm
    simp only [List.mem_cons, List.not_mem_nil, or_false] at hm
    rcases hm with rfl | rfl | rfl | rfl | rfl | rfl | rfl | rfl | rfl
    · exact ⟨_, compute_error_img_MAE h w c img ref⟩
    · exact ⟨_, compute_error_img_MAPE h w c img ref⟩
    · exact ⟨_, compute_error_img_SMAPE h w c img ref⟩
    · exact ⟨_, compute_error_img_MSE h w c img ref⟩
    · exact ⟨_, compute_error_img_MScE h w c img ref⟩
    · exact ⟨_, compute_error_img_MRSE h w c img ref⟩
    · exact ⟨_, compute_error_img_MtRSE h w c img ref⟩
    · exact ⟨_, compute_error_img_MRScE h w c img ref⟩
    · exact ⟨_, compute_error_img_SSIM h w c img ref⟩
  · intro hm
    simp only [List.mem_cons, List.not_mem_nil, or_false, not_or] at hm
    obtain ⟨h1, h2, h3, h4, h5, h6, h7, h8, h9⟩ := hm
    unfold compute_error_img
    rw [if_neg h1, if_neg h2, if_neg h3, if_neg h4, if_neg h5, if_neg h6,
      if_neg h7, if_neg h8, if_neg h9]

/-- C4 witness: the metric name `FOO` is rejected with the message
`Unknown metric: FOO.`, while `MAE` is accepted. -/
theorem unknown_metric_error_witness :
    (3 ≤ 3) ∧
    (("FOO" : String) ∉ ["MAE", "MAPE", "SMAPE", "MSE", "MScE", "MRSE", "MtRSE", "MRScE", "SSIM"] →
      compute_error_img "FOO" 1 1 3 (fun _ _ _ => 0) (fun _ _ _ => 0) =
        .error ("Unknown metric: " ++ "FOO" ++ ".")) :=
  ⟨le_refl 3,
    (unknown_metric_error "FOO" 1 1 3 (fun _ _ _ => 0) (fun _ _ _ => 0) (le_refl 3)).2⟩

/-! ### C1: identity law of the elementwise metrics -/

/-- C1 counterexample: the identity law fails for an image with a negative
entry.  `compute_error_img` clamps the candidate to non-negative values
(`np.maximum(img, 0.)` allocates a new array) but not the reference, so
comparing the constant image `-1` against itself yields MAE `1`, not `0`. -/
theorem compute_error_self_neg_ne_zero :
    compute_error "MAE" 1 1 1 (fun _ _ _ => (-1 : ℝ)) (fun _ _ _ => (-1 : ℝ)) = .ok 1 ∧
    (Except.ok (1 : ℝ) : Except String ℝ) ≠ .ok 0 := by
  constructor
  · rw [compute_error_chan "MAE" 1 1 1 _ _ _ (compute_error_img_MAE 1 1 1 _ _)]
    simp [mean2, L1, sanitize]
  · intro hcontra
    rw [Except.ok.injEq] at hcontra
    norm_num at hcontra

/-- C1 (amended): for every image with positive dimensions and
non-negative entries, `compute_error(m, img, img) = 0` for each of the
seven elementwise metrics MAE, MAPE, SMAPE, MSE, MScE, MRSE, MRScE: the
candidate sanitisation is then the identity, so every numerator
`|img - ref|` or `(img - ref)^2` vanishes.  (The original claim, quantified
over all images, fails for images with negative entries because the
clamping of the candidate is not applied to the reference.) -/
theorem compute_error_self_eq_zero_of_nonneg (metric : String)
    (hm : metric ∈ ["MAE", "MAPE", "SMAPE", "MSE", "MScE", "MRSE", "MRScE"])
    (h w c : ℕ) (hh : 0 < h) (hw : 0 < w) (hc : 0 < c)
    (img : ℕ → ℕ → ℕ → ℝ) (hpos : ∀ i j ch, 0 ≤ img i j ch) :
    compute_error metric h w c img img = .ok 0 := by
  have hs : sanitize img = img := by
    funext i j ch
    exact max_eq_left (hpos i j ch)
  have key : ∀ F : ℕ → ℕ → ℕ → ℝ, (∀ i j ch, F i j ch = 0) →
      (Except.ok (mean2 h w fun i j => (∑ ch ∈ Finset.range c, F i j ch) / (c : ℝ)) :
        Except String ℝ) = .ok 0 := by
    intro F hF
    have : mean2 h w (fun i j => (∑ ch ∈ Finset.range c, F i j ch) / (c : ℝ)) = 0 := by
      simp [mean2, hF]
    rw [this]
  simp only [List.mem_cons, List.not_mem_nil, or_false] at hm
  rcases hm with rfl | rfl | rfl | rfl | rfl | rfl | rfl
  · rw [compute_error_chan _ _ _ _ _ _ _ (compute_error_img_MAE h w c img img), hs]
    exact key _ fun i j ch => by simp [L1]
  · rw [compute_error_chan _ _ _ _ _ _ _ (compute_error_img_MAPE h w c img img), hs]
    exact key _ fun i j ch => by simp [APE, L1]
  · rw [compute_error_chan _ _ _ _ _ _ _ (compute_error_img_SMAPE h w c img img), hs]
    exact key _ fun i j ch => by simp [SAPE, L1]
  · rw [compute_error_chan _ _ _ _ _ _ _ (compute_error_img_MSE h w c img img), hs]
    exact key _ fun i j ch => by simp [L2]
  · rw [compute_error_chan _ _ _ _ _ _ _ (compute_error_img_MScE h w c img img), hs]
    exact key _ fun i j ch => by simp [L2]
  · rw [compute_error_chan _ _ _ _ _ _ _ (compute_error_img_MRSE h w c img img), hs]
    exact key _ fun i j ch => by simp [RSE, L2]
  · rw [compute_error_chan _ _ _ _ _ _ _ (compute_error_img_MRScE h w c img img), hs]
    exact key _ fun i j ch => by simp [RSE, L2]

/-- C1 witness: the amended identity law instantiated at MAE on the
constant 1×1×1 image with value `2`. -/
theorem compute_error_self_eq_zero_of_nonneg_witness :
    (("MAE" : String) ∈ ["MAE", "MAPE", "SMAPE", "MSE", "MScE", "MRSE", "MRScE"]) ∧
    (0 < 1) ∧ (∀ i j ch : ℕ, (0 : ℝ) ≤ (fun _ _ _ => (2 : ℝ)) i j ch) ∧
    compute_error "MAE" 1 1 1 (fun _ _ _ => (2 : ℝ)) (fun _ _ _ => (2 : ℝ)) = .ok 0 :=
  ⟨by decide, by decide, fun _ _ _ => by norm_num,
    compute_error_self_eq_zero_of_nonneg "MAE" (by decide) 1 1 1 (by decide) (by decide)
      (by decide) (fun _ _ _ => (2 : ℝ)) (fun _ _ _ => by norm_num)⟩

/-! ### C8: guarded alpha un-premultiplication -/

/-- C8: the un-premultiplication step of `write_image`'s raster branch is
total on the RGB channels: wherever alpha is non-zero the result is
`rgb / alpha`, and wherever alpha is zero the result is defined to be `0`
(the zero-initialised `out` array of `np.divide` is left untouched), so
the guarded division never divides by zero. -/
theorem unmultiply_alpha_guarded (pix : ℕ → ℕ → ℕ → ℝ) (i j ch : ℕ) (hch : ch < 3) :
    (pix i j 3 ≠ 0 → unmultiply_alpha pix i j ch = pix i j ch / pix i j 3) ∧
    (pix i j 3 = 0 → unmultiply_alpha pix i j ch = 0) := by
  constructor <;> intro ha <;> simp [unmultiply_alpha, hch, ha]

/-- C8 witness: the guard instantiated on a pixel whose alpha is zero. -/
theorem unmultiply_alpha_guarded_witness :
    (0 < 3) ∧
    ((fun _ _ ch => if ch = 3 then (0 : ℝ) else 5) 0 0 3 = 0 →
      unmultiply_alpha (fun _ _ ch => if ch = 3 then (0 : ℝ) else 5) 0 0 0 = 0) :=
  ⟨by decide,
    (unmultiply_alpha_guarded (fun _ _ ch => if ch = 3 then (0 : ℝ) else 5) 0 0 0
      (by decide)).2⟩

/-! ### C10: SSIM depends on its inputs only through their clamp to [0, 1] -/

/-- C10: for non-negative images, `compute_error_img("SSIM", img, ref)`
equals `compute_error_img("SSIM", clip(img,0,1), clip(ref,0,1))`: the SSIM
branch clips both inputs to `[0, 1]` before anything else, and clipping is
idempotent (also across the candidate sanitisation). -/
theorem ssim_clip_invariant (h w c : ℕ) (img ref : ℕ → ℕ → ℕ → ℝ)
    (himg : ∀ i j ch, 0 ≤ img i j ch) (href : ∀ i j ch, 0 ≤ ref i j ch) :
    compute_error_img "SSIM" h w c img ref =
      compute_error_img "SSIM" h w c (clip3 0 1 img) (clip3 0 1 ref) := by
  rw [compute_error_img_SSIM, compute_error_img_SSIM]
  have collapse : ∀ x : ℝ, min (max (min (max x 0) 1) 0) 1 = min (max x 0) 1 := by
    intro x
    have h0 : (0 : ℝ) ≤ min (max x 0) 1 := le_min (le_max_right x 0) zero_le_one
    rw [max_eq_left h0, min_assoc, min_self]
  have e1 : clip3 0 1 (sanitize img) = clip3 0 1 (sanitize (clip3 0 1 img)) := by
    funext i j ch
    show min (max (max (img i j ch) 0) 0) 1 =
      min (max (max (min (max (img i j ch) 0) 1) 0) 0) 1
    rw [max_assoc, max_self, max_assoc, max_self, collapse]
  have e2 : clip3 0 1 ref = clip3 0 1 (clip3 0 1 ref) := by
    funext i j ch
    show min (max (ref i j ch) 0) 1 = min (max (min (max (ref i j ch) 0) 1) 0) 1
    rw [collapse]
  conv_lhs => rw [e1, e2]

/-- C10 witness: SSIM clip-invariance instantiated on a constant image
with values above 1 and a constant reference. -/
theorem ssim_clip_invariant_witness :
    (∀ i j ch : ℕ, (0 : ℝ) ≤ (fun _ _ _ => (2 : ℝ)) i j ch) ∧
    (∀ i j ch : ℕ, (0 : ℝ) ≤ (fun _ _ _ => (1 / 2 : ℝ)) i j ch) ∧
    compute_error_img "SSIM" 1 1 3 (fun _ _ _ => (2 : ℝ)) (fun _ _ _ => (1 / 2 : ℝ)) =
      compute_error_img "SSIM" 1 1 3
        (clip3 0 1 (fun _ _ _ => (2 : ℝ))) (clip3 0 1 (fun _ _ _ => (1 / 2 : ℝ))) :=
  ⟨fun _ _ _ => by norm_num, fun _ _ _ => by norm_num,
    ssim_clip_invariant 1 1 3 _ _ (fun _ _ _ => by norm_num) (fun _ _ _ => by norm_num)⟩

/-! ### C3: MtRSE returns a bare scalar -/

/-- C3: `compute_error_img("MtRSE", img, ref)` returns a bare scalar --
the trimmed mean of the MRSE map, with `int(1e-6 * size)` entries dropped
from each tail of the sorted values -- while every other metric name
returns an array-shaped map. -/
theorem mtrse_scalar_unlike_other_metrics (h w c : ℕ) (hc : 3 ≤ c)
    (img ref : ℕ → ℕ → ℕ → ℝ) :
    (compute_error_img "MtRSE" h w c img ref =
        .ok (.scalar (trim (flatten3 h w c (RSE (sanitize img) ref)))) ∧
      ∃ M, compute_error_img "MtRSE" h w c img ref = .ok M ∧ M.IsScalar) ∧
    (∀ m ∈ ["MAE", "MAPE", "SMAPE", "MSE", "MScE", "MRSE", "MRScE", "SSIM"],
      ∃ M, compute_error_img m h w c img ref = .ok M ∧ ¬ M.IsScalar) := by
  refine ⟨⟨compute_error_img_MtRSE h w c img ref,
    ⟨_, compute_error_img_MtRSE h w c img ref, trivial⟩⟩, ?_⟩
  intro m hm
  simp only [List.mem_cons, List.not_mem_nil, or_false] at hm
  rcases hm with rfl | rfl | rfl | rfl | rfl | rfl | rfl | rfl
  · exact ⟨_, compute_error_img_MAE h w c img ref, not_false⟩
  · exact ⟨_, compute_error_img_MAPE h w c img ref, not_false⟩
  · exact ⟨_, compute_error_img_SMAPE h w c img ref, not_false⟩
  · exact ⟨_, compute_error_img_MSE h w c img ref, not_false⟩
  · exact ⟨_, compute_error_img_MScE h w c img ref, not_false⟩
  · exact ⟨_, compute_error_img_MRSE h w c img ref, not_false⟩
  · exact ⟨_, compute_error_img_MRScE h w c img ref, not_false⟩
  · exact ⟨_, compute_error_img_SSIM h w c img ref, not_false⟩

/-- C3 witness: the scalar/map contrast instantiated on 1×1×3 images. -/
theorem mtrse_scalar_unlike_other_metrics_witness :
    (3 ≤ 3) ∧
    (∃ M, compute_error_img "MtRSE" 1 1 3 (fun _ _ _ => 0) (fun _ _ _ => 0) = .ok M ∧
      M.IsScalar) :=
  ⟨le_refl 3,
    (mtrse_scalar_unlike_other_metrics 1 1 3 (le_refl 3)
      (fun _ _ _ => 0) (fun _ _ _ => 0)).1.2⟩

/-! ### C9: non-negativity of the error values -/

theorem lmean_nonneg (l : List ℝ) (h : ∀ x ∈ l, 0 ≤ x) : 0 ≤ lmean l :=
  div_nonneg (List.sum_nonneg h) (Nat.cast_nonneg _)

theorem mem_sortR (x : ℝ) (l : List ℝ) (hx : x ∈ sortR l) : x ∈ l :=
  (List.Perm.mem_iff (List.perm_insertionSort _ l)).mp hx

theorem trim_nonneg (l : List ℝ) (h : ∀ x ∈ l, 0 ≤ x) : 0 ≤ trim l := by
  unfold trim
  apply lmean_nonneg
  intro x hx
  exact h x (mem_sortR x l (List.drop_subset _ _ (List.take_subset _ _ hx)))

theorem mem_flatten3 (h w c : ℕ) (F : ℕ → ℕ → ℕ → ℝ) (x : ℝ)
    (hx : x ∈ flatten3 h w c F) : ∃ i j ch, x = F i j ch := by
  simp only [flatten3, List.mem_flatMap, List.mem_map, List.mem_range] at hx
  obtain ⟨i, _, j, _, ch, _, rfl⟩ := hx
  exact ⟨i, j, ch, rfl⟩

/-- C9 (amended): for each metric other than SSIM and for any reference
image with non-negative entries, every value produced by
`compute_error_img` is non-negative (every entry of the per-channel map,
and the MtRSE scalar).  The original claim, over every metric and
arbitrary finite references, fails twice: MAPE/SMAPE/MRSE divide by
`1e-2 + ref`-style denominators that are negative for sufficiently
negative references, and the SSIM map is negative wherever the local
covariance term `2*sAB + c2` is negative (anti-correlated inputs). -/
theorem error_map_nonneg_of_nonneg_ref (metric : String)
    (hm : metric ∈ ["MAE", "MAPE", "SMAPE", "MSE", "MScE", "MRSE", "MtRSE", "MRScE"])
    (h w c : ℕ) (img ref : ℕ → ℕ → ℕ → ℝ) (href : ∀ i j ch, 0 ≤ ref i j ch) :
    ∃ M, compute_error_img metric h w c img ref = .ok M ∧ M.Nonneg := by
  have hsan : ∀ i j ch : ℕ, 0 ≤ sanitize img i j ch := fun _ _ _ => le_max_right _ _
  have hrse : ∀ (a b : ℕ → ℕ → ℕ → ℝ) (i j ch : ℕ), 0 ≤ RSE a b i j ch := by
    intro a b i j ch
    exact div_nonneg (sq_nonneg _) (add_nonneg (by norm_num) (sq_nonneg _))
  simp only [List.mem_cons, List.not_mem_nil, or_false] at hm
  rcases hm with rfl | rfl | rfl | rfl | rfl | rfl | rfl | rfl
  · exact ⟨_, compute_error_img_MAE h w c img ref, fun i j ch => abs_nonneg _⟩
  · exact ⟨_, compute_error_img_MAPE h w c img ref, fun i j ch =>
      div_nonneg (abs_nonneg _) (add_nonneg (by norm_num) (href i j ch))⟩
  · exact ⟨_, compute_error_img_SMAPE h w c img ref, fun i j ch =>
      div_nonneg (abs_nonneg _) (add_nonneg (by norm_num)
        (div_nonneg (add_nonneg (href i j ch) (hsan i j ch)) (by norm_num)))⟩
  · exact ⟨_, compute_error_img_MSE h w c img ref, fun i j ch => sq_nonneg _⟩
  · exact ⟨_, compute_error_img_MScE h w c img ref, fun i j ch => sq_nonneg _⟩
  · exact ⟨_, compute_error_img_MRSE h w c img ref, hrse _ _⟩
  · refine ⟨_, compute_error_img_MtRSE h w c img ref, ?_⟩
    show 0 ≤ trim (flatten3 h w c (RSE (sanitize img) ref))
    apply trim_nonneg
    intro x hx
    obtain ⟨i, j, ch, rfl⟩ := mem_flatten3 h w c _ x hx
    exact hrse _ _ i j ch
  · exact ⟨_, compute_error_img_MRScE h w c img ref, hrse _ _⟩

/-- C9 witness: non-negativity instantiated at MAPE with the constant
reference `1/2` and a candidate containing a negative value. -/
theorem error_map_nonneg_of_nonneg_ref_witness :
    (("MAPE" : String) ∈ ["MAE", "MAPE", "SMAPE", "MSE", "MScE", "MRSE", "MtRSE", "MRScE"]) ∧
    (∀ i j ch : ℕ, (0 : ℝ) ≤ (fun _ _ _ => (1 / 2 : ℝ)) i j ch) ∧
    ∃ M, compute_error_img "MAPE" 1 1 1 (fun _ _ _ => (-3 : ℝ)) (fun _ _ _ => (1 / 2 : ℝ)) =
      .ok M ∧ M.Nonneg :=
  ⟨by decide, fun _ _ _ => by norm_num,
    error_map_nonneg_of_nonneg_ref "MAPE" (by decide) 1 1 1 _ _ (fun _ _ _ => by norm_num)⟩

/-! ### Evaluation helpers for the blur / luminance pipeline -/

theorem kern_sum : ∑ t : Fin 5, kern t = 1 := by
  rw [Fin.sum_univ_five]
  show (0.120078 : ℝ) + 0.233881 + 0.292082 + 0.233881 + 0.120078 = 1
  norm_num

theorem conv0_rowconst (h : ℕ) (v : ℕ → ℝ) (i j : ℕ) :
    conv0 h (fun _ q => v q) i j = v j := by
  simp only [conv0]
  rw [← Finset.sum_mul, kern_sum, one_mul]

theorem conv1_w2_at00 (v : ℕ → ℝ) :
    conv1 2 (fun _ q => v q) 0 0 =
      (kern 1 + kern 2) * v 0 + (kern 0 + kern 3 + kern 4) * v 1 := by
  simp only [conv1, Fin.sum_univ_five]
  norm_num [reflectIdx,
    show (((0 : Fin 5) : ℕ) : ℤ) = 0 from rfl,
    show (((1 : Fin 5) : ℕ) : ℤ) = 1 from rfl,
    show (((2 : Fin 5) : ℕ) : ℤ) = 2 from rfl,
    show (((3 : Fin 5) : ℕ) : ℤ) = 3 from rfl,
    show (((4 : Fin 5) : ℕ) : ℤ) = 4 from rfl,
    show Int.toNat 2 = 2 from rfl, show Int.toNat 0 = 0 from rfl,
    show Int.toNat 1 = 1 from rfl, show Int.toNat 3 = 3 from rfl]
  ring

theorem blur_rowconst_w2 (h : ℕ) (v : ℕ → ℝ) :
    blur h 2 (fun _ q => v q) 0 0 =
      (kern 1 + kern 2) * v 0 + (kern 0 + kern 3 + kern 4) * v 1 := by
  have hc : conv0 h (fun _ q => v q) = fun _ q => v q := by
    funext i j
    exact conv0_rowconst h v i j
  unfold blur
  rw [hc]
  exact conv1_w2_at00 v

theorem lum_binary (v : ℕ → ℝ) (hv : ∀ j, v j = 0 ∨ v j = 1) :
    luminance (clip3 0 1 (fun _ j _ => v j)) = fun _ j => v j := by
  funext i j
  rcases hv j with h0 | h1
  · simp only [luminance, clip3, lum_gamma, h0]
    norm_num
  · simp only [luminance, clip3, lum_gamma, h1]
    norm_num

theorem ssim_entry_neg :
    SSIM 1 2 (clip3 0 1 (sanitize (fun _ j _ => if j = 0 then (0 : ℝ) else 1)))
      (clip3 0 1 (fun _ j _ => if j = 0 then (1 : ℝ) else 0)) 0 0 < 0 := by
  have hsan : sanitize (fun _ j _ => if j = 0 then (0 : ℝ) else 1) =
      (fun _ j _ => if j = 0 then (0 : ℝ) else 1) := by
    funext i j ch
    by_cases hj : j = 0 <;> simp [sanitize, hj]
  have hA : luminance (clip3 0 1 (fun _ j _ => if j = 0 then (0 : ℝ) else 1)) =
      fun _ j => if j = 0 then (0 : ℝ) else 1 := by
    apply lum_binary
    intro j
    by_cases hj : j = 0 <;> simp [hj]
  have hB : luminance (clip3 0 1 (fun _ j _ => if j = 0 then (1 : ℝ) else 0)) =
      fun _ j => if j = 0 then (1 : ℝ) else 0 := by
    apply lum_binary
    intro j
    by_cases hj : j = 0 <;> simp [hj]
  rw [hsan]
  simp only [SSIM, hA, hB]
  have hAA : (fun (p q : ℕ) => (if q = 0 then (0 : ℝ) else 1) * if q = 0 then (0 : ℝ) else 1) =
      fun _ q => if q = 0 then (0 : ℝ) else 1 := by
    funext p q
    by_cases hq : q = 0 <;> simp [hq]
  have hBB : (fun (p q : ℕ) => (if q = 0 then (1 : ℝ) else 0) * if q = 0 then (1 : ℝ) else 0) =
      fun _ q => if q = 0 then (1 : ℝ) else 0 := by
    funext p q
    by_cases hq : q = 0 <;> simp [hq]
  have hAB : (fun (p q : ℕ) => (if q = 0 then (0 : ℝ) else 1) * if q = 0 then (1 : ℝ) else 0) =
      fun _ q => (0 : ℝ) := by
    funext p q
    by_cases hq : q = 0 <;> simp [hq]
  rw [hAA, hBB, hAB]
  rw [blur_rowconst_w2, blur_rowconst_w2, blur_rowconst_w2]
  have k0 : kern 0 = 0.120078 := rfl
  have k1 : kern 1 = 0.233881 := rfl
  have k2 : kern 2 = 0.292082 := rfl
  have k3 : kern 3 = 0.233881 := rfl
  have k4 : kern 4 = 0.120078 := rfl
  refine mul_neg_of_pos_of_neg (div_pos ?_ ?_) (div_neg_of_neg_of_pos ?_ ?_) <;>
    norm_num [k0, k1, k2, k3, k4]

/-- C9 counterexample: error maps can contain negative entries.  First,
for a reference with a sufficiently negative value the MAPE denominator
`1e-2 + ref` is negative, giving a negative map entry (candidate constant
`0`, reference constant `-1`).  Second, for anti-correlated inputs the
SSIM covariance numerator `2*sAB + c2` is negative, giving a negative SSIM
entry even though both images are non-negative (a 1×2 pair with opposite
0/1 pixels in all channels). -/
theorem error_map_negative_entries :
    (∃ F, compute_error_img "MAPE" 1 1 1 (fun _ _ _ => (0 : ℝ)) (fun _ _ _ => (-1 : ℝ)) =
        .ok (.chan F) ∧ F 0 0 0 < 0) ∧
    (∃ G, compute_error_img "SSIM" 1 2 3 (fun _ j _ => if j = 0 then (0 : ℝ) else 1)
        (fun _ j _ => if j = 0 then (1 : ℝ) else 0) = .ok (.plane G) ∧ G 0 0 < 0) := by
  constructor
  · refine ⟨_, compute_error_img_MAPE 1 1 1 _ _, ?_⟩
    show APE (sanitize fun _ _ _ => (0 : ℝ)) (fun _ _ _ => (-1 : ℝ)) 0 0 0 < 0
    simp only [APE, L1, sanitize]
    norm_num
  · exact ⟨_, compute_error_img_SSIM 1 2 3 _ _, ssim_entry_neg⟩

/-! ### C2: SSIM of an image with itself -/

theorem kern_nonneg (t : Fin 5) : 0 ≤ kern t := by
  fin_cases t <;> norm_num [kern]

theorem weighted_jensen {ι : Type} [Fintype ι] (w y : ι → ℝ)
    (hw : ∀ i, 0 ≤ w i) (hw1 : ∑ i, w i = 1) :
    (∑ i, w i * y i) ^ 2 ≤ ∑ i, w i * y i ^ 2 := by
  have key := Finset.sum_mul_sq_le_sq_mul_sq Finset.univ
    (fun i => Real.sqrt (w i)) (fun i => Real.sqrt (w i) * y i)
  have e1 : ∀ i : ι, Real.sqrt (w i) * (Real.sqrt (w i) * y i) = w i * y i := by
    intro i
    rw [← mul_assoc, Real.mul_self_sqrt (hw i)]
  have e2 : ∀ i : ι, Real.sqrt (w i) ^ 2 = w i := fun i => Real.sq_sqrt (hw i)
  have e3 : ∀ i : ι, (Real.sqrt (w i) * y i) ^ 2 = w i * y i ^ 2 := by
    intro i
    rw [mul_pow, Real.sq_sqrt (hw i)]
  simp only [e1, e2, e3, hw1, one_mul] at key
  exact key

theorem kern2_sum : ∑ p : Fin 5 × Fin 5, kern p.1 * kern p.2 = 1 := by
  rw [Fintype.sum_prod_type, ← Finset.sum_mul_sum, kern_sum, one_mul]

theorem blur_apply (h w : ℕ) (x : ℕ → ℕ → ℝ) (i j : ℕ) :
    blur h w x i j = ∑ p : Fin 5 × Fin 5,
      (kern p.1 * kern p.2) *
        x (reflectIdx h ((i : ℤ) + p.2.val - 2)) (reflectIdx w ((j : ℤ) + p.1.val - 2)) := by
  rw [Fintype.sum_prod_type]
  simp only [blur, conv1, conv0, Finset.mul_sum]
  refine Finset.sum_congr rfl fun t _ => Finset.sum_congr rfl fun s _ => by ring

theorem svar_nonneg (h w : ℕ) (x : ℕ → ℕ → ℝ) (i j : ℕ) :
    blur h w x i j ^ 2 ≤ blur h w (fun p q => x p q * x p q) i j := by
  rw [blur_apply, blur_apply]
  have key := weighted_jensen (ι := Fin 5 × Fin 5)
    (fun p => kern p.1 * kern p.2)
    (fun p => x (reflectIdx h ((i : ℤ) + p.2.val - 2)) (reflectIdx w ((j : ℤ) + p.1.val - 2)))
    (fun p => mul_nonneg (kern_nonneg p.1) (kern_nonneg p.2)) kern2_sum
  simpa only [pow_two] using key

theorem ssim_self (h w : ℕ) (a : ℕ → ℕ → ℕ → ℝ) :
    SSIM h w a a = fun _ _ => 1 := by
  funext i j
  simp only [SSIM]
  set A := luminance a with hA
  set M := blur h w A i j with hM
  set Q := blur h w (fun p q => A p q * A p q) i j with hQ
  have hQM : M ^ 2 ≤ Q := svar_nonneg h w A i j
  have d1 : M * M + M * M + (0.01 : ℝ) ^ 2 ≠ 0 := by
    have hm : (0 : ℝ) ≤ M * M := mul_self_nonneg M
    have hc : (0 : ℝ) < (0.01 : ℝ) ^ 2 := by norm_num
    linarith
  have d2 : Q - M ^ 2 + (Q - M ^ 2) + (0.03 : ℝ) ^ 2 ≠ 0 := by
    have h2 : (0 : ℝ) < (0.03 : ℝ) ^ 2 := by norm_num
    have h3 : (0 : ℝ) ≤ Q - M ^ 2 := sub_nonneg.mpr hQM
    linarith
  have n1 : 2 * M * M + (0.01 : ℝ) ^ 2 = M * M + M * M + (0.01 : ℝ) ^ 2 := by ring
  have n2 : 2 * (Q - M * M) + (0.03 : ℝ) ^ 2 =
      Q - M ^ 2 + (Q - M ^ 2) + (0.03 : ℝ) ^ 2 := by ring
  rw [n1, n2, div_self d1, div_self d2, one_mul]

theorem mean2_ones (h w : ℕ) (hh : 0 < h) (hw : 0 < w) :
    mean2 h w (fun _ _ => (1 : ℝ)) = 1 := by
  simp only [mean2, Finset.sum_const, Finset.card_range, nsmul_eq_mul, mul_one]
  rw [div_self]
  exact ne_of_gt (mul_pos (Nat.cast_pos.mpr hh) (Nat.cast_pos.mpr hw))

/-- C2: for every image with positive dimensions (and at least 3 channels,
as SSIM's luminance reads channels 0-2), the per-pixel SSIM map of the
image with itself is the constant `1` -- at every pixel, including
boundary pixels -- and `compute_error("SSIM", img, img) = 1`.  With both
inputs identical, `mA = mB`, `sA = sB = sAB`, both SSIM factors have equal
numerator and denominator, and the denominators are positive because
`sA = blur(a²) - blur(a)² ≥ 0` (the blur is a convex combination, by
Cauchy-Schwarz) and `c1, c2 > 0`. -/
theorem ssim_self_eq_one (h w c : ℕ) (hh : 0 < h) (hw : 0 < w) (hc : 3 ≤ c)
    (img : ℕ → ℕ → ℕ → ℝ) :
    compute_error_img "SSIM" h w c img img = .ok (.plane (fun _ _ => 1)) ∧
    compute_error "SSIM" h w c img img = .ok 1 := by
  have hclip : clip3 0 1 (sanitize img) = clip3 0 1 img := by
    funext i j ch
    show min (max (max (img i j ch) 0) 0) 1 = min (max (img i j ch) 0) 1
    rw [max_assoc, max_self]
  have hmap : SSIM h w (clip3 0 1 (sanitize img)) (clip3 0 1 img) = fun _ _ => 1 := by
    rw [hclip]
    exact ssim_self h w (clip3 0 1 img)
  constructor
  · rw [compute_error_img_SSIM, hmap]
  · rw [compute_error_plane _ _ _ _ _ _ _ (compute_error_img_SSIM h w c img img), hmap,
      mean2_ones h w hh hw]

/-- C2 witness: SSIM self-similarity instantiated on a 2×2, 3-channel
image with a negative and a large entry. -/
theorem ssim_self_eq_one_witness :
    (0 < 2) ∧ (3 ≤ 3) ∧
    compute_error "SSIM" 2 2 3 (fun i _ _ => if i = 0 then (-1 : ℝ) else 7)
      (fun i _ _ => if i = 0 then (-1 : ℝ) else 7) = .ok 1 :=
  ⟨by decide, by decide,
    (ssim_self_eq_one 2 2 3 (by decide) (by decide) (by decide)
      (fun i _ _ => if i = 0 then (-1 : ℝ) else 7)).2⟩

/-! ### C7: sRGB round trip -/

/-- C7 counterexample: the round trip is not exact at the threshold point
`x = 0.04045` (which lies in `[0, 1]`).  There `srgb_to_linear` takes the
linear branch, giving `0.04045 / 12.92 ≈ 0.0031308050 > 0.0031308`, so
`linear_to_srgb` takes the power branch, and the result would equal
`0.04045` only if `(0.04045/12.92)^5 = (0.09545/1.055)^12`, which is false
as an exact rational identity (the IEC threshold constants do not make the
two branches coincide exactly). -/
theorem srgb_roundtrip_fails_at_threshold :
    ((0 : ℝ) ≤ 0.04045 ∧ (0.04045 : ℝ) ≤ 1) ∧
    linear_to_srgb (srgb_to_linear 0.04045) ≠ 0.04045 := by
  refine ⟨⟨by norm_num, by norm_num⟩, ?_⟩
  have h1 : srgb_to_linear 0.04045 = (0.04045 : ℝ) / 12.92 := by
    rw [srgb_to_linear, if_neg (by norm_num : ¬ ((0.04045 : ℝ) > 0.04045))]
  rw [h1, linear_to_srgb, if_pos (by norm_num : (0.04045 : ℝ) / 12.92 > 0.0031308)]
  intro heq
  have ha : (0 : ℝ) < (0.04045 : ℝ) / 12.92 := by norm_num
  have hx : ((0.04045 : ℝ) / 12.92) ^ ((1 : ℝ) / 2.4) = 0.09545 / 1.055 := by
    nlinarith [heq]
  have h12 : (((0.04045 : ℝ) / 12.92) ^ ((1 : ℝ) / 2.4)) ^ (12 : ℕ) =
      ((0.09545 : ℝ) / 1.055) ^ (12 : ℕ) := by rw [hx]
  rw [← Real.rpow_natCast (((0.04045 : ℝ) / 12.92) ^ ((1 : ℝ) / 2.4)) 12,
    ← Real.rpow_mul ha.le] at h12
  rw [show ((1 : ℝ) / 2.4 * (12 : ℕ)) = 5 by norm_num] at h12
  rw [show ((0.04045 : ℝ) / 12.92) ^ (5 : ℝ) = ((0.04045 : ℝ) / 12.92) ^ (5 : ℕ) from
    Real.rpow_natCast _ 5] at h12
  norm_num at h12

/-- C7 (amended): for every `x ∈ [0, 1]` outside the sliver
`(0.0031308 * 12.92, 0.04045] = (0.040449936, 0.04045]`, the round trip
`linear_to_srgb (srgb_to_linear x)` equals `x` exactly: below the sliver
both functions take their linear branches (`12.92 * (x / 12.92) = x`),
above it both take their power branches and the exponents `2.4` and
`1/2.4` cancel.  Inside the sliver the branches mismatch and the round
trip is only approximate (the piecewise branches do not agree exactly at
the thresholds); this is the floating-point-tolerance discrepancy of the
original claim made exact. -/
theorem srgb_roundtrip_exact_off_sliver (x : ℝ) (h0 : 0 ≤ x) (h1 : x ≤ 1)
    (hx : x ≤ 0.040449936 ∨ 0.04045 < x) :
    linear_to_srgb (srgb_to_linear x) = x := by
  rcases hx with hlo | hhi
  · have hb : ¬ (x > (0.04045 : ℝ)) := by
      push_neg
      nlinarith
    rw [srgb_to_linear, if_neg hb]
    have hb2 : ¬ (x / 12.92 > (0.0031308 : ℝ)) := by
      push_neg
      rw [div_le_iff₀ (by norm_num : (0 : ℝ) < 12.92)]
      nlinarith
    rw [linear_to_srgb, if_neg hb2]
    field_simp
  · rw [srgb_to_linear, if_pos hhi]
    set u : ℝ := (x + 0.055) / 1.055 with hu
    have hu0 : (0 : ℝ) < u := by
      rw [hu]
      positivity
    have hulo : (1909 / 21100 : ℝ) < u := by
      rw [hu, div_lt_div_iff₀ (by norm_num) (by norm_num)]
      nlinarith
    have hygt : u ^ (2.4 : ℝ) > (0.0031308 : ℝ) := by
      have hq : (((1909 / 21100 : ℝ)) ^ (2.4 : ℝ)) ^ (5 : ℕ) =
          ((1909 / 21100 : ℝ)) ^ (12 : ℕ) := by
        rw [← Real.rpow_natCast (((1909 / 21100 : ℝ)) ^ (2.4 : ℝ)) 5,
          ← Real.rpow_mul (by norm_num : (0 : ℝ) ≤ 1909 / 21100)]
        rw [show ((2.4 : ℝ) * (5 : ℕ)) = ((12 : ℕ) : ℝ) by norm_num]
        rw [Real.rpow_natCast]
      have hb5 : ((0.0031308 : ℝ)) ^ (5 : ℕ) <
          (((1909 / 21100 : ℝ)) ^ (2.4 : ℝ)) ^ (5 : ℕ) := by
        rw [hq]
        norm_num
      have hpos : (0 : ℝ) ≤ ((1909 / 21100 : ℝ)) ^ (2.4 : ℝ) :=
        Real.rpow_nonneg (by norm_num) _
      have hthr : ((1909 / 21100 : ℝ)) ^ (2.4 : ℝ) > 0.0031308 :=
        lt_of_pow_lt_pow_left₀ 5 hpos hb5
      have hmono : ((1909 / 21100 : ℝ)) ^ (2.4 : ℝ) ≤ u ^ (2.4 : ℝ) :=
        Real.rpow_le_rpow (by norm_num) hulo.le (by norm_num)
      linarith
    rw [linear_to_srgb, if_pos hygt]
    rw [← Real.rpow_mul hu0.le]
    rw [show ((2.4 : ℝ) * (1 / 2.4)) = 1 by norm_num, Real.rpow_one, hu]
    field_simp

/-- C7 witness: the exact round trip instantiated at `x = 1`. -/
theorem srgb_roundtrip_exact_off_sliver_witness :
    ((0 : ℝ) ≤ 1 ∧ (1 : ℝ) ≤ 1 ∧ ((1 : ℝ) ≤ 0.040449936 ∨ (0.04045 : ℝ) < 1)) ∧
    linear_to_srgb (srgb_to_linear 1) = 1 :=
  ⟨⟨by norm_num, le_refl 1, Or.inr (by norm_num)⟩,
    srgb_roundtrip_exact_off_sliver 1 (by norm_num) (le_refl 1) (Or.inr (by norm_num))⟩

/-! ### Helpers for the .bin codec -/

theorem pairsBytes_length (l : List (ℕ × ℕ)) : (pairsBytes l).length = 2 * l.length := by
  induction l with
  | nil => rfl
  | cons p t ih =>
      simp [pairsBytes, ih]
      ring

theorem chunk2_pairsBytes (l : List (ℕ × ℕ)) : chunk2 (pairsBytes l) = l := by
  induction l with
  | nil => rfl
  | cons p t ih => simp [pairsBytes, chunk2, ih]

theorem decodeInt32_int32le (n : ℕ) (hn : n < 2 ^ 31) :
    decodeInt32 (n % 256) (n / 256 % 256) (n / 65536 % 256) (n / 16777216 % 256) = (n : ℤ) := by
  unfold decodeInt32
  have hu : n % 256 + 256 * (n / 256 % 256) + 65536 * (n / 65536 % 256) +
      16777216 * (n / 16777216 % 256) = n := by omega
  rw [hu, if_pos (by exact_mod_cast hn)]

theorem getD_range_mapQ (n k : ℕ) (g : ℕ → ℚ) (d : ℚ) (hk : k < n) :
    ((List.range n).map g).getD k d = g k := by
  rw [List.getD_eq_getElem?_getD, List.getElem?_map, List.getElem?_range hk]
  rfl

theorem flatidx_mod (w i j ch : ℕ) (hj : j < w) (hch : ch < 4) :
    ((i * w + j) * 4 + ch) % 4 = ch ∧ ((i * w + j) * 4 + ch) / 4 = i * w + j ∧
    (i * w + j) % w = j ∧ (i * w + j) / w = i := by
  have hw : 0 < w := by omega
  refine ⟨?_, ?_, ?_, ?_⟩
  · have key : ∀ q : ℕ, (q * 4 + ch) % 4 = ch := fun q => by omega
    exact key (i * w + j)
  · have key : ∀ q : ℕ, (q * 4 + ch) / 4 = q := fun q => by omega
    exact key (i * w + j)
  · rw [add_comm, Nat.add_mul_mod_self_right, Nat.mod_eq_of_lt hj]
  · rw [add_comm, Nat.add_mul_div_right j i hw, Nat.div_eq_of_lt hj, zero_add]

theorem flatidx_lt (h w i j ch : ℕ) (hi : i < h) (hj : j < w) (hch : ch < 4) :
    (i * w + j) * 4 + ch < h * w * 4 := by
  have h1 : i * w + j + 1 ≤ h * w := by
    calc i * w + j + 1 ≤ i * w + w := by omega
    _ = (i + 1) * w := by ring
    _ ≤ h * w := Nat.mul_le_mul_right w hi
  calc (i * w + j) * 4 + ch < (i * w + j + 1) * 4 := by omega
  _ ≤ (h * w) * 4 := Nat.mul_le_mul_right 4 h1

theorem binVals_at (img : QImage) (hc : img.c ≤ 4) (i j ch : ℕ)
    (hj : j < img.w) (hch : ch < 4) :
    binVals img ((i * img.w + j) * 4 + ch) = if ch < img.c then img.pix i j ch else 1 := by
  have hcw : (if img.c < 4 then 4 else img.c) = 4 := by
    split <;> omega
  obtain ⟨hm, hd, hmw, hdw⟩ := flatidx_mod img.w i j ch hj hch
  simp only [binVals, hcw, hm, hd, hmw, hdw]

theorem rhe_nonneg (q : ℚ) (h : 0 ≤ q) : 0 ≤ rhe q := by
  have hge : (0 : ℤ) ≤ ⌊q⌋ := Int.floor_nonneg.mpr h
  unfold rhe
  split
  · exact hge
  · split
    · omega
    · split <;> omega

theorem rhe_le (q : ℚ) (b : ℤ) (h : q < (b : ℚ) + 1 / 2) : rhe q ≤ b := by
  have hfl : (⌊q⌋ : ℚ) ≤ q := Int.floor_le q
  have hfb : ⌊q⌋ ≤ b := by
    have h2 : (⌊q⌋ : ℚ) < ((b + 1 : ℤ) : ℚ) := by
      push_cast
      linarith
    exact Int.lt_add_one_iff.mp (by exact_mod_cast h2)
  unfold rhe
  split
  · exact hfb
  · rename_i hlt
    push_neg at hlt
    split
    · rename_i hgt
      have hlt2 : (⌊q⌋ : ℚ) < (b : ℚ) := by linarith
      have hfb2 : ⌊q⌋ < b := by exact_mod_cast hlt2
      omega
    · rename_i hngt
      push_neg at hngt
      have heq : q - ⌊q⌋ = 1 / 2 := le_antisymm hngt hlt
      have hlt2 : (⌊q⌋ : ℚ) < (b : ℚ) := by linarith
      have hfb2 : ⌊q⌋ < b := by exact_mod_cast hlt2
      split <;> omega

theorem f16bits_lt (x : ℚ) (hx : |x| < 65520) : f16bits x < 65536 := by
  simp only [f16bits]
  split
  · norm_num
  · set s := (if x < 0 then (32768 : ℕ) else 0) with hsdef
    have hs : s ≤ 32768 := by
      rw [hsdef]
      split <;> omega
    split
    · rename_i hsub
      have h1 : rhe (|x| * 16777216) ≤ 1024 := by
        apply rhe_le
        push_cast
        linarith
      have h2 : (rhe (|x| * 16777216)).toNat ≤ 1024 := by omega
      omega
    · rename_i hnorm
      push_neg at hnorm
      set t := (⌊|x| * 16384⌋).toNat with ht
      set L := t.log2 with hL
      have hm0 : (0 : ℚ) ≤ |x| := abs_nonneg x
      have hflnn : (0 : ℤ) ≤ ⌊|x| * 16384⌋ := Int.floor_nonneg.mpr (by positivity)
      have htq : (t : ℚ) = ((⌊|x| * 16384⌋ : ℤ) : ℚ) := by
        rw [ht]
        exact_mod_cast congrArg (fun z : ℤ => (z : ℚ)) (Int.toNat_of_nonneg hflnn)
      have ht1 : 1 ≤ t := by
        have hfl : (1 : ℤ) ≤ ⌊|x| * 16384⌋ := Int.le_floor.mpr (by push_cast; linarith)
        omega
      have htlt : t < 2 ^ 30 := by
        have hq : |x| * 16384 < 1073741824 := by linarith
        have hfl : ⌊|x| * 16384⌋ < 1073741824 := Int.floor_lt.mpr (by push_cast; linarith)
        omega
      have hL29 : L ≤ 29 := by
        have := (Nat.log2_lt (by omega : t ≠ 0)).mpr htlt
        omega
      have hub : |x| * 16384 < (t : ℚ) + 1 := by
        rw [htq]
        have h1 := Int.lt_floor_add_one (|x| * 16384)
        push_cast at h1 ⊢
        linarith
      have htpow : (t : ℕ) + 1 ≤ 2 ^ (L + 1) := Nat.lt_log2_self
      have hubq : |x| * 16384 < ((2 : ℚ)) ^ (L + 1) := by
        have h2 : ((t + 1 : ℕ) : ℚ) ≤ ((2 ^ (L + 1) : ℕ) : ℚ) := by exact_mod_cast htpow
        push_cast at h2
        linarith
      have hk2048 : rhe (|x| * 16777216 / 2 ^ L) ≤ 2048 := by
        apply rhe_le
        have hpow : (0 : ℚ) < 2 ^ L := by positivity
        rw [div_lt_iff₀ hpow]
        have hfin : |x| * 16777216 < 2048 * 2 ^ L := by
          calc |x| * 16777216 = |x| * 16384 * 1024 := by ring
            _ < (2 : ℚ) ^ (L + 1) * 1024 := by linarith
            _ = 2048 * 2 ^ L := by rw [pow_succ]; ring
        push_cast
        linarith
      have hknat : (rhe (|x| * 16777216 / 2 ^ L)).toNat ≤ 2048 := by omega
      split
      · omega
      · rename_i hkne
        have hk47 : (rhe (|x| * 16777216 / 2 ^ L)).toNat ≤ 2047 := by omega
        omega

theorem log2_16384 : Nat.log2 16384 = 14 := by
  have h1 : 14 ≤ Nat.log2 16384 := (Nat.le_log2 (by norm_num)).mpr (by norm_num)
  have h2 : Nat.log2 16384 < 15 := (Nat.log2_lt (by norm_num)).mpr (by norm_num)
  omega

/-- Sanity check of the half-float model: `1.0` encodes to the binary16
code `0x3C00 = 15360`, so the `1.0`-padding channels of the `.bin` format
are written as the exact half-float one. -/
theorem f16bits_one : f16bits 1 = 15360 := by
  have habs : |(1 : ℚ)| = 1 := abs_one
  have hf : (⌊(1 : ℚ) * 16384⌋).toNat = 16384 := by
    rw [show ((1 : ℚ) * 16384) = ((16384 : ℤ) : ℚ) by norm_num, Int.floor_intCast]
    rfl
  have hrhe : rhe ((1 : ℚ) * 16777216 / 2 ^ 14) = 1024 := by
    rw [show ((1 : ℚ) * 16777216 / 2 ^ 14) = ((1024 : ℤ) : ℚ) by norm_num]
    unfold rhe
    rw [Int.floor_intCast]
    norm_num
  simp only [f16bits, habs, hf, log2_16384, hrhe,
    show ((1024 : ℤ)).toNat = 1024 from rfl]
  norm_num

/-- Sanity check of the half-float model: `1.0` survives the write/read
quantisation exactly. -/
theorem f16round_one : f16round 1 = 1 := by
  unfold f16round
  rw [f16bits_one]
  norm_num [f16val]

theorem log2_5461 : Nat.log2 5461 = 12 := by
  have h1 : 12 ≤ Nat.log2 5461 := (Nat.le_log2 (by norm_num)).mpr (by norm_num)
  have h2 : Nat.log2 5461 < 13 := (Nat.log2_lt (by norm_num)).mpr (by norm_num)
  omega

/-- Sanity check of the half-float model: rounding is not the identity --
`1/3` quantises to code `0x3555 = 13653`, whose value is
`1365/4096 = 0.333251953125`, matching `np.float16(1/3)`. -/
theorem f16round_third : f16round (1 / 3) = 1365 / 4096 := by
  have habs : |(1 / 3 : ℚ)| = 1 / 3 := abs_of_pos (by norm_num)
  have hf : (⌊(1 / 3 : ℚ) * 16384⌋).toNat = 5461 := by
    rw [show ⌊(1 / 3 : ℚ) * 16384⌋ = 5461 from by
      rw [Int.floor_eq_iff]
      constructor <;> norm_num]
    rfl
  have hrhe : rhe ((1 / 3 : ℚ) * 16777216 / 2 ^ 12) = 1365 := by
    rw [show ((1 / 3 : ℚ) * 16777216 / 2 ^ 12) = 4096 / 3 by norm_num]
    unfold rhe
    rw [show ⌊(4096 / 3 : ℚ)⌋ = 1365 from by
      rw [Int.floor_eq_iff]
      constructor <;> norm_num]
    norm_num
  have hbits : f16bits (1 / 3) = 13653 := by
    simp only [f16bits, habs, hf, log2_5461, hrhe,
      show ((1365 : ℤ)).toNat = 1365 from rfl]
    norm_num
  unfold f16round
  rw [hbits]
  norm_num [f16val]

/-! ### C5: .bin write/read round trip -/

/-- C5: writing an image to a `.bin` buffer and reading the buffer back
reproduces the image exactly up to half-precision rounding of each value
(`f16round`, i.e. `astype(np.float16).astype(np.float32)`): the height and
width are preserved, the result always has 4 channels, and channels
missing from the input (fewer than 4) read back as the constant `1.0`
padding.  Stated for images whose header fits in an int32 and whose
values lie in the finite binary16 range (beyond `65520` the conversion
overflows to infinity, which the rational model does not represent). -/
theorem bin_roundtrip (img : QImage) (hh : 0 < img.h) (hw : 0 < img.w)
    (hh31 : img.h < 2 ^ 31) (hw31 : img.w < 2 ^ 31) (hc : img.c ≤ 4)
    (hrange : ∀ i j ch, i < img.h → j < img.w → ch < img.c → |img.pix i j ch| < 65520) :
    ∃ out, read_image_bin (write_image_bin img) = .ok out ∧
      out.h = img.h ∧ out.w = img.w ∧ out.c = 4 ∧
      ∀ i j ch, i < img.h → j < img.w → ch < 4 →
        out.pix i j ch = f16round (if ch < img.c then img.pix i j ch else 1) := by
  have hcw : (if img.c < 4 then 4 else img.c) = 4 := by
    split <;> omega
  have hwrite : write_image_bin img = int32le img.h ++ int32le img.w ++
      pairsBytes ((List.range (img.h * img.w * 4)).map fun k => encodePair (binVals img k)) := by
    simp only [write_image_bin, hcw]
  have hlen : (write_image_bin img).length = 8 + 2 * (img.h * img.w * 4) := by
    rw [hwrite]
    simp [int32le, pairsBytes_length]
    omega
  have hdrop : (write_image_bin img).drop 8 =
      pairsBytes ((List.range (img.h * img.w * 4)).map fun k => encodePair (binVals img k)) := by
    rw [hwrite]
    rfl
  have hb0 : byteAt (write_image_bin img) 0 = img.h % 256 := by rw [hwrite]; rfl
  have hb1 : byteAt (write_image_bin img) 1 = img.h / 256 % 256 := by rw [hwrite]; rfl
  have hb2 : byteAt (write_image_bin img) 2 = img.h / 65536 % 256 := by rw [hwrite]; rfl
  have hb3 : byteAt (write_image_bin img) 3 = img.h / 16777216 % 256 := by rw [hwrite]; rfl
  have hb4 : byteAt (write_image_bin img) 4 = img.w % 256 := by rw [hwrite]; rfl
  have hb5 : byteAt (write_image_bin img) 5 = img.w / 256 % 256 := by rw [hwrite]; rfl
  have hb6 : byteAt (write_image_bin img) 6 = img.w / 65536 % 256 := by rw [hwrite]; rfl
  have hb7 : byteAt (write_image_bin img) 7 = img.w / 16777216 % 256 := by rw [hwrite]; rfl
  simp only [read_image_bin, hb0, hb1, hb2, hb3, hb4, hb5, hb6, hb7,
    decodeInt32_int32le img.h hh31, decodeInt32_int32le img.w hw31, Int.toNat_natCast]
  rw [if_neg (by rw [hlen]; omega : ¬ ((write_image_bin img).length < 8))]
  rw [if_neg (by
    rw [not_or]
    constructor
    · exact not_lt.mpr (Int.natCast_nonneg img.h)
    · exact not_lt.mpr (Int.natCast_nonneg img.w))]
  rw [if_neg (by rw [hlen]; omega : ¬ ((write_image_bin img).length - 8 <
    img.h * img.w * 4 * 2))]
  refine ⟨_, rfl, rfl, rfl, rfl, ?_⟩
  intro i j ch hi hj hch
  show (if i < img.h ∧ j < img.w ∧ ch < 4 then
      ((chunk2 ((write_image_bin img).drop 8)).map fun p => f16val (p.1 + 256 * p.2)).getD
        ((i * img.w + j) * 4 + ch) 0
    else 0) = f16round (if ch < img.c then img.pix i j ch else 1)
  rw [if_pos ⟨hi, hj, hch⟩, hdrop, chunk2_pairsBytes, List.map_map]
  rw [getD_range_mapQ _ _ _ _ (flatidx_lt img.h img.w i j ch hi hj hch)]
  show f16val ((encodePair (binVals img ((i * img.w + j) * 4 + ch))).1 +
      256 * (encodePair (binVals img ((i * img.w + j) * 4 + ch))).2) = _
  rw [binVals_at img hc i j ch hj hch]
  set v : ℚ := if ch < img.c then img.pix i j ch else 1 with hv
  have hvr : |v| < 65520 := by
    rw [hv]
    split
    · exact hrange i j ch hi hj (by assumption)
    · norm_num
  show f16val (f16bits v % 256 + 256 * (f16bits v / 256)) = f16round v
  rw [show f16bits v % 256 + 256 * (f16bits v / 256) = f16bits v from by
    have := f16bits_lt v hvr
    omega]
  rfl

/-- C5 witness: the round trip instantiated on a 1×1 single-channel image
holding `1/3` (which quantises to `1365/4096`, with channels 1-3 padded to
`1.0`). -/
theorem bin_roundtrip_witness :
    ((0 < 1) ∧ (1 < 2 ^ 31) ∧ ((1 : ℕ) ≤ 4) ∧
      (∀ i j ch : ℕ, i < 1 → j < 1 → ch < 1 →
        |(QImage.mk 1 1 1 fun _ _ _ => 1 / 3).pix i j ch| < 65520)) ∧
    ∃ out, read_image_bin (write_image_bin (QImage.mk 1 1 1 fun _ _ _ => 1 / 3)) = .ok out ∧
      out.h = 1 ∧ out.w = 1 ∧ out.c = 4 ∧
      ∀ i j ch, i < 1 → j < 1 → ch < 4 →
        out.pix i j ch = f16round (if ch < 1 then (1 / 3 : ℚ) else 1) :=
  ⟨⟨by decide, by norm_num, by decide, fun _ _ _ _ _ _ => by
      rw [show |(QImage.mk 1 1 1 fun _ _ _ => (1 / 3 : ℚ)).pix _ _ _| = |(1 / 3 : ℚ)| from rfl,
        abs_of_nonneg (by norm_num : (0 : ℚ) ≤ 1 / 3)]
      norm_num⟩,
    bin_roundtrip (QImage.mk 1 1 1 fun _ _ _ => 1 / 3) (by decide) (by decide)
      (by norm_num) (by norm_num) (by decide) (fun _ _ _ _ _ _ => by
        rw [show |(QImage.mk 1 1 1 fun _ _ _ => (1 / 3 : ℚ)).pix _ _ _| = |(1 / 3 : ℚ)| from rfl,
          abs_of_nonneg (by norm_num : (0 : ℚ) ≤ 1 / 3)]
        norm_num)⟩

/-! ### C6: .bin length validation -/

/-- C6 (amended): for a buffer with a complete, non-negative header, the
`.bin` reader fails exactly when the buffer is too short for the declared
dimensions (`length - 8 < h*w*4*2`); a buffer longer than `8 + h*w*4*2`
bytes is accepted, with the extra trailing bytes ignored
(`np.frombuffer(..., count=h*w*4, offset=8)` only requires the count to be
available).  The original claim's converse -- that a longer buffer also
fails -- does not hold. -/
theorem read_bin_error_iff_short (bytes : List ℕ) (hlen : 8 ≤ bytes.length)
    (hh : 0 ≤ decodeInt32 (byteAt bytes 0) (byteAt bytes 1) (byteAt bytes 2) (byteAt bytes 3))
    (hw : 0 ≤ decodeInt32 (byteAt bytes 4) (byteAt bytes 5) (byteAt bytes 6) (byteAt bytes 7)) :
    (∃ img, read_image_bin bytes = .ok img) ↔
      (decodeInt32 (byteAt bytes 0) (byteAt bytes 1) (byteAt bytes 2) (byteAt bytes 3)).toNat *
        (decodeInt32 (byteAt bytes 4) (byteAt bytes 5) (byteAt bytes 6) (byteAt bytes 7)).toNat *
          4 * 2 ≤ bytes.length - 8 := by
  simp only [read_image_bin]
  rw [if_neg (by omega : ¬ bytes.length < 8)]
  rw [if_neg (by
    rw [not_or]
    exact ⟨not_lt.mpr hh, not_lt.mpr hw⟩)]
  split
  · rename_i hbuf
    constructor
    · rintro ⟨img, himg⟩
      exact absurd himg (by simp)
    · intro hle
      omega
  · rename_i hbuf
    constructor
    · intro _
      omega
    · intro _
      exact ⟨_, rfl⟩

/-- C6 counterexample: a buffer that is LONGER than the declared size is
read successfully, contradicting the claim that any length mismatch
fails.  The buffer below declares a 1×1 image (needing 8 + 8 = 16 bytes)
but holds 17 bytes; `read_image_bin` succeeds on it. -/
theorem read_bin_longer_buffer_ok :
    ([1, 0, 0, 0, 1, 0, 0, 0, 0, 0, 0, 0, 0, 0, 0, 0, 0] : List ℕ).length ≠ 8 + 1 * 1 * 4 * 2 ∧
    ∃ img, read_image_bin [1, 0, 0, 0, 1, 0, 0, 0, 0, 0, 0, 0, 0, 0, 0, 0, 0] = .ok img ∧
      img.h = 1 ∧ img.w = 1 := by
  refine ⟨by decide, ⟨_, rfl, rfl, rfl⟩⟩

/-- C6 witness: the short-buffer criterion instantiated on a 10-byte
buffer declaring a 1×2 image (which would need 24 bytes, so reading
fails). -/
theorem read_bin_error_iff_short_witness :
    (8 ≤ ([1, 0, 0, 0, 2, 0, 0, 0, 0, 0] : List ℕ).length) ∧
    ((∃ img, read_image_bin [1, 0, 0, 0, 2, 0, 0, 0, 0, 0] = .ok img) ↔
      (decodeInt32 (byteAt [1, 0, 0, 0, 2, 0, 0, 0, 0, 0] 0)
          (byteAt [1, 0, 0, 0, 2, 0, 0, 0, 0, 0] 1) (byteAt [1, 0, 0, 0, 2, 0, 0, 0, 0, 0] 2)
          (byteAt [1, 0, 0, 0, 2, 0, 0, 0, 0, 0] 3)).toNat *
        (decodeInt32 (byteAt [1, 0, 0, 0, 2, 0, 0, 0, 0, 0] 4)
          (byteAt [1, 0, 0, 0, 2, 0, 0, 0, 0, 0] 5) (byteAt [1, 0, 0, 0, 2, 0, 0, 0, 0, 0] 6)
          (byteAt [1, 0, 0, 0, 2, 0, 0, 0, 0, 0] 7)).toNat * 4 * 2 ≤
        ([1, 0, 0, 0, 2, 0, 0, 0, 0, 0] : List ℕ).length - 8) :=
  ⟨by decide,
    read_bin_error_iff_short [1, 0, 0, 0, 2, 0, 0, 0, 0, 0] (by decide) (by decide) (by decide)⟩
